import Mathlib

/-
Verification development for the goreleaser-helper repository.

The Go sources are shallowly embedded: pure string manipulation is
translated to Lean functions over List Char / String, external effects
(the compiler toolchain, the remote release-hosting HTTP calls, the
timestamp parser of the standard library, the filesystem) are passed in
as explicit oracle parameters, and the concurrent fan-out/fan-in stages
are modelled by their fan-in collection (every unit runs to completion
and contributes one outcome) in matrix order.
-/

/-- Go strings.Split with a one-character separator: splits cs at every
occurrence of sep; the empty input yields one empty field. -/
def splitOnChar (sep : Char) : List Char → List (List Char)
  | [] => [[]]
  | c :: cs =>
    match splitOnChar sep cs with
    | [] => [[]]
    | g :: gs => if c = sep then [] :: g :: gs else (c :: g) :: gs

/-- Membership test for a character in a character list, as a Bool. -/
def containsChar (x : Char) : List Char → Bool
  | [] => false
  | c :: cs => c = x || containsChar x cs

/-- RE2 word character class backslash-w, ASCII [0-9A-Za-z_]. -/
def isWordChar (c : Char) : Bool :=
  c.isAlphanum || c = '_'

/-- Character class of the scope group in the conventional-commit regex:
[0-9A-Za-z_-]. -/
def isScopeChar (c : Char) : Bool :=
  isWordChar c || c = '-'

/-- RE2 whitespace class backslash-s: tab, newline, form feed, carriage
return, space. -/
def isSpaceChar (c : Char) : Bool :=
  c = ' ' || c = '\t' || c = '\n' || c = '\r' || c = Char.ofNat 12

/-- One changelog entry, translated from the Go struct Entry in
internal/changelog/changelog.go (field Type is lowercased because Type
is a Lean keyword; time.Time is modelled as a Nat instant). -/
structure Entry where
  type : String
  scope : String
  description : String
  hash : String
  author : String
  date : Nat
deriving DecidableEq

/-- Matcher for the regex tail colon backslash-s star (.+) dollar with Go
regexp backtracking semantics: the greedy whitespace run gives back
characters one at a time until the dot-plus group (at least one
character, none of them a newline, reaching end of text) matches. -/
def matchDesc (cs : List Char) : Option String :=
  let d := cs.dropWhile isSpaceChar
  if d.isEmpty then
    match cs.getLast? with
    | none => none
    | some c => if c = '\n' then none else some (String.mk [c])
  else
    if containsChar '\n' d then none else some (String.mk d)

/-- Matcher for the optional parenthesized scope group of the
conventional-commit regex; when the group cannot match, the regex falls
back to matching it empty, so the input is returned unconsumed. -/
def matchScope (cs : List Char) : Option (List Char) × List Char :=
  match cs with
  | c :: r =>
    if c = '(' then
      match r.takeWhile isScopeChar, r.dropWhile isScopeChar with
      | s0 :: stl, c2 :: r3 => if c2 = ')' then (some (s0 :: stl), r3) else (none, cs)
      | _, _ => (none, cs)
    else (none, cs)
  | [] => (none, cs)

/-- The full conventional-commit regex of parseCommitMessage, anchored at
both ends, returning the three capture groups on a match. -/
def matchConventional (cs : List Char) : Option (String × Option String × String) :=
  let ty := cs.takeWhile isWordChar
  if ty.isEmpty then none
  else
    let scr := matchScope (cs.dropWhile isWordChar)
    match scr.2 with
    | c :: r3 =>
      if c = ':' then
        match matchDesc r3 with
        | some d => some (String.mk ty, scr.1.map String.mk, d)
        | none => none
      else none
    | [] => none

/-- parseCommitMessage from internal/changelog/changelog.go: on a regex
match the captured type, scope and description are taken over (an absent
scope group leaves scope empty); otherwise type is other and the whole
message is kept as the description. -/
def parseCommitMessage (message : String) : Entry :=
  match matchConventional message.toList with
  | some (ty, sc, d) =>
    { type := ty, scope := sc.getD "", description := d
      hash := "", author := "", date := 0 }
  | none =>
    { type := "other", scope := "", description := message
      hash := "", author := "", date := 0 }

example : (parseCommitMessage "feat(api): add endpoint").type = "feat" := by decide
example : (parseCommitMessage "feat(api): add endpoint").scope = "api" := by decide
example : (parseCommitMessage "feat(api): add endpoint").description = "add endpoint" := by decide
example : (parseCommitMessage "wip: hello").type = "wip" := by decide
example : (parseCommitMessage "no colon here").type = "other" := by decide
example : (parseCommitMessage "fix:").type = "other" := by decide
example : (parseCommitMessage "fix:").description = "fix:" := by decide
example : (parseCommitMessage "fix(x):").type = "other" := by decide

/-- Fixed grouping order of formatChangelog (the local types list in the
Go source): the eleven known changelog kinds. -/
def kindOrder : List String :=
  ["feat", "fix", "docs", "style", "refactor", "perf", "test", "build", "ci", "chore", "other"]

/-- formatType from internal/changelog/changelog.go: section headings for
the known kinds; the fallback title-cases the kind (strings.Title on a
single word is capitalize). -/
def formatType (t : String) : String :=
  if t = "feat" then "Features"
  else if t = "fix" then "Bug Fixes"
  else if t = "docs" then "Documentation"
  else if t = "style" then "Styles"
  else if t = "refactor" then "Code Refactoring"
  else if t = "perf" then "Performance Improvements"
  else if t = "test" then "Tests"
  else if t = "build" then "Builds"
  else if t = "ci" then "Continuous Integration"
  else if t = "chore" then "Chores"
  else if t = "other" then "Other Changes"
  else t.capitalize

/-- One rendered bullet line of a changelog section. -/
def entryLine (e : Entry) : String :=
  "- " ++ (if e.scope ≠ "" then "(" ++ e.scope ++ ") " else "") ++ e.description ++ "\n"

/-- The section one kind contributes to the changelog: the entries of
that kind in input order, or nothing when the kind has no entry (a map
key is present exactly when at least one entry was appended under it). -/
def sectionOpt (entries : List Entry) (t : String) : Option (String × List Entry) :=
  let g := entries.filter (fun e => e.type == t)
  if g.isEmpty then none else some (t, g)

/-- The section list emitted by formatChangelog: the kinds of the fixed
order, each with its entries, empty kinds omitted. -/
def changelogSections (entries : List Entry) : List (String × List Entry) :=
  kindOrder.filterMap (sectionOpt entries)

/-- Rendered text of one section. -/
def sectionText (s : String × List Entry) : String :=
  "## " ++ formatType s.1 ++ "\n\n" ++ String.join (s.2.map entryLine) ++ "\n"

/-- Key set of a Go map with String keys built by insertion: each key
exactly once. -/
def dedupKeys : List String → List String
  | [] => []
  | a :: rest =>
    let r := dedupKeys rest
    if a ∈ r then r else a :: r

/-- The iteration orders a Go map over the authors of the entries can
produce: Go randomizes map iteration, so any permutation of the key set
is a possible run. -/
def validAuthorOrder (entries : List Entry) (order : List String) : Prop :=
  List.Perm order (dedupKeys (entries.map Entry.author))

instance (entries : List Entry) (order : List String) :
    Decidable (validAuthorOrder entries order) := by
  unfold validAuthorOrder; infer_instance

/-- The contributors block of formatChangelog, rendered from one concrete
map-iteration order over the author set. -/
def contributorsSection (order : List String) : String :=
  "## Contributors\n\n" ++ String.join (order.map (fun a => "- " ++ a ++ "\n"))

/-- formatChangelog from internal/changelog/changelog.go; time.Now is
modelled by the dateStr parameter and the Go map iteration over authors
by the authorOrder parameter. -/
def formatChangelog (version dateStr : String) (entries : List Entry)
    (authorOrder : List String) : String :=
  "# Changelog for " ++ version ++ "\n\n" ++
  "Release date: " ++ dateStr ++ "\n\n" ++
  String.join ((changelogSections entries).map sectionText) ++
  contributorsSection authorOrder

/-- writeChangelog from internal/changelog/changelog.go: the filesystem
is modelled by the optional content of the pre-existing changelog file
(none when os.Stat reports the file absent, which is not an error); the
returned value is the byte content handed to os.WriteFile. -/
def writeChangelog (content : String) (existing : Option String) : Except String String :=
  .ok (content ++ "\n\n" ++ (match existing with | some s => s | none => ""))

/-- One line of git-log output processed by getCommits: split on the pipe
separator, require exactly four fields, drop the record when the
timestamp does not parse (time.Parse modelled by the parseDate oracle),
otherwise classify the message and attach hash, author and date. -/
def parseRecordLine (parseDate : String → Option Nat) (line : List Char) : Option Entry :=
  match splitOnChar '|' line with
  | [hash, author, dateS, message] =>
    match parseDate (String.mk dateS) with
    | none => none
    | some d =>
      let e := parseCommitMessage (String.mk message)
      some { e with hash := String.mk hash, author := String.mk author, date := d }
  | _ => none

/-- Insertion step of the date-descending sort of getCommits. -/
def insertByDate (e : Entry) : List Entry → List Entry
  | [] => [e]
  | x :: xs => if x.date < e.date then e :: x :: xs else x :: insertByDate e xs

/-- The sort.Slice call of getCommits: entries ordered by date
descending (most recent first). -/
def sortByDate (l : List Entry) : List Entry :=
  l.foldr insertByDate []

/-- getCommits of internal/changelog/changelog.go after the git log
subprocess has produced its output, taken as the list of output lines. -/
def getCommitsLines (parseDate : String → Option Nat) (lines : List (List Char)) : List Entry :=
  sortByDate (lines.filterMap (parseRecordLine parseDate))

/-- getCommits on the raw subprocess output: Go splits the output on
newlines and processes each line. -/
def getCommits (parseDate : String → Option Nat) (output : String) : List Entry :=
  getCommitsLines parseDate (splitOnChar '\n' output.toList)

/-- A build target platform (struct Platform / the platform entries of
the configuration). -/
structure Platform where
  OS : String
  Arch : String
deriving DecidableEq

/-- The result of one successful platform build (struct BuildResult). -/
structure BuildResult where
  Path : String
  Platform : String
  Arch : String
deriving DecidableEq

/-- buildForPlatform from internal/build/build.go: the external go build
invocation is the run oracle (true iff the compiler exits zero); on
success the deterministic output path and the platform pair are
returned. -/
def buildForPlatform (projectName outputDir : String) (run : String → String → Bool)
    (goos arch : String) : Except String BuildResult :=
  let outputPath := outputDir ++ "/" ++ projectName ++ "_" ++ goos ++ "_" ++ arch
  let outputPath := if goos = "windows" then outputPath ++ ".exe" else outputPath
  if run goos arch then
    .ok { Path := outputPath, Platform := goos, Arch := arch }
  else
    .error "build command failed"

/-- The fan-in state of BuildBinaries after wg.Wait: every platform of
the matrix has run to completion and contributed either a result (the
mutex-guarded results slice) or a wrapped error (the buffered error
channel); modelled in matrix order. -/
def buildCollect (projectName outputDir : String) (run : String → String → Bool) :
    List Platform → List BuildResult × List String
  | [] => ([], [])
  | p :: rest =>
    let acc := buildCollect projectName outputDir run rest
    match buildForPlatform projectName outputDir run p.OS p.Arch with
    | .ok r => (r :: acc.1, acc.2)
    | .error e =>
      (acc.1, ("failed to build for " ++ p.OS ++ "/" ++ p.Arch ++ ": " ++ e) :: acc.2)

/-- BuildBinaries from internal/build/build.go: after all builds finish,
the error channel is drained and the first error found is returned with
nil results; only when no build failed are the collected results
returned. -/
def BuildBinaries (projectName outputDir : String) (run : String → String → Bool)
    (matrix : List Platform) : Except String (List BuildResult) :=
  match buildCollect projectName outputDir run matrix with
  | (results, []) => .ok results
  | (_, e :: _) => .error e

/-- The artifacts the caller of BuildBinaries receives. -/
def returnedArtifacts : Except String (List BuildResult) → List BuildResult
  | .ok l => l
  | .error _ => []

/-- The build failures the caller of BuildBinaries receives. -/
def returnedFailures : Except String (List BuildResult) → List String
  | .ok _ => []
  | .error e => [e]

/-- uploadAssets from internal/github/release.go: a sequential loop over
the binaries; the whole body of one iteration (open, stat, read, HTTP
POST) is the upload oracle, and any failing iteration returns its error
immediately, ending the loop. -/
def uploadAssets (upload : BuildResult → Except String Unit) :
    List BuildResult → Except String Unit
  | [] => .ok ()
  | b :: rest =>
    match upload b with
    | .error e => .error e
    | .ok _ => uploadAssets upload rest

/-- The uploads uploadAssets actually attempts: the prefix of the binary
list up to and including the first failing upload. -/
def uploadAttempts (upload : BuildResult → Except String Unit) :
    List BuildResult → List BuildResult
  | [] => []
  | b :: rest =>
    match upload b with
    | .error _ => [b]
    | .ok _ => b :: uploadAttempts upload rest

/-- parseRepoURL from internal/github/release.go: an owner/name pair
separated by exactly one slash. -/
def parseRepoURL (repo : String) : Except String (String × String) :=
  match splitOnChar '/' repo.toList with
  | [a, b] => .ok (String.mk a, String.mk b)
  | _ => .error ("invalid repository format: " ++ repo)

/-- Observable events of one CreateRelease execution, used to state the
ordering of the remote calls. -/
inductive PubEvent where
  | createAttempt : PubEvent
  | createOk : String → PubEvent
  | uploadAttempt : String → PubEvent
deriving DecidableEq

/-- CreateRelease from internal/github/release.go: parse the repository,
issue the remote create call (the create oracle yields the remote
release identifier), and only then upload the assets; the second
component is the event trace of the execution. -/
def CreateRelease (repo : String) (create : Except String String)
    (upload : BuildResult → Except String Unit) (binaries : List BuildResult) :
    Except String Unit × List PubEvent :=
  match parseRepoURL repo with
  | .error e => (.error ("failed to parse repository URL: " ++ e), [])
  | .ok _ =>
    match create with
    | .error e => (.error ("failed to create release: " ++ e), [.createAttempt])
    | .ok releaseID =>
      let evs := (uploadAttempts upload binaries).map (fun b => PubEvent.uploadAttempt b.Path)
      match uploadAssets upload binaries with
      | .error e =>
        (.error ("failed to upload assets: " ++ e), .createAttempt :: .createOk releaseID :: evs)
      | .ok _ => (.ok (), .createAttempt :: .createOk releaseID :: evs)

/-- The characters a well-formed optional scope group contributes to the
message: nothing, or the scope token in parentheses. -/
def scopeChunk : Option (List Char) → List Char
  | none => []
  | some s => '(' :: (s ++ [')'])

theorem isEmptyIffNil {α : Type} (l : List α) : l.isEmpty = true ↔ l = [] := by
  cases l <;> simp

theorem takeWhile_append_stop (p : Char → Bool) (l : List Char) (x : Char) (r : List Char)
    (hl : ∀ c ∈ l, p c = true) (hx : p x = false) :
    (l ++ x :: r).takeWhile p = l ∧ (l ++ x :: r).dropWhile p = x :: r := by
  induction l with
  | nil => simp [List.takeWhile_cons, List.dropWhile_cons, hx]
  | cons a as ih =>
    have ha : p a = true := hl a (by simp)
    have ih2 := ih (fun c hc => hl c (by simp [hc]))
    simp [List.takeWhile_cons, List.dropWhile_cons, ha, ih2.1, ih2.2]

theorem dropWhile_append_all (p : Char → Bool) (ws d : List Char)
    (hws : ∀ c ∈ ws, p c = true) (hd : ∀ c, d.head? = some c → p c = false) :
    (ws ++ d).dropWhile p = d := by
  induction ws with
  | nil =>
    cases d with
    | nil => rfl
    | cons dh dt => simp [List.dropWhile_cons, hd dh rfl]
  | cons a as ih =>
    have ha : p a = true := hws a (by simp)
    simp [List.dropWhile_cons, ha, ih (fun c hc => hws c (by simp [hc]))]

theorem matchDesc_wellformed (ws d : List Char) (hws : ∀ c ∈ ws, isSpaceChar c = true)
    (hd : d ≠ []) (hdh : ∀ c, d.head? = some c → isSpaceChar c = false)
    (hn : containsChar '\n' d = false) :
    matchDesc (ws ++ d) = some (String.mk d) := by
  unfold matchDesc
  rw [dropWhile_append_all _ _ _ hws hdh]
  obtain ⟨dh, dt, rfl⟩ := List.exists_cons_of_ne_nil hd
  simp [hn]

theorem matchConventional_wellformed (tyL : List Char) (sc : Option (List Char))
    (ws dL : List Char)
    (hty : tyL ≠ []) (htyw : ∀ c ∈ tyL, isWordChar c = true)
    (hsc : ∀ s, sc = some s → s ≠ [] ∧ ∀ c ∈ s, isScopeChar c = true)
    (hws : ∀ c ∈ ws, isSpaceChar c = true)
    (hd : dL ≠ []) (hdh : ∀ c, dL.head? = some c → isSpaceChar c = false)
    (hn : containsChar '\n' dL = false) :
    matchConventional (tyL ++ (scopeChunk sc ++ ':' :: (ws ++ dL))) =
      some (String.mk tyL, sc.map String.mk, String.mk dL) := by
  have hdescm := matchDesc_wellformed ws dL hws hd hdh hn
  cases sc with
  | none =>
    have htw := takeWhile_append_stop isWordChar tyL ':' (ws ++ dL) htyw (by decide)
    unfold matchConventional
    rw [scopeChunk, List.nil_append, htw.1, htw.2]
    obtain ⟨t0, tt, rfl⟩ := List.exists_cons_of_ne_nil hty
    simp [matchScope, hdescm]
  | some s =>
    obtain ⟨hsnil, hsw⟩ := hsc s rfl
    have hshape : scopeChunk (some s) ++ ':' :: (ws ++ dL) =
        '(' :: (s ++ ')' :: ':' :: (ws ++ dL)) := by
      simp [scopeChunk]
    have htw := takeWhile_append_stop isWordChar tyL '(' (s ++ ')' :: ':' :: (ws ++ dL))
      htyw (by decide)
    have hsw2 := takeWhile_append_stop isScopeChar s ')' (':' :: (ws ++ dL)) hsw (by decide)
    unfold matchConventional
    rw [hshape, htw.1, htw.2]
    obtain ⟨t0, tt, rfl⟩ := List.exists_cons_of_ne_nil hty
    obtain ⟨s0, st, rfl⟩ := List.exists_cons_of_ne_nil hsnil
    have h1 : List.takeWhile isScopeChar (s0 :: (st ++ ')' :: ':' :: (ws ++ dL))) =
        s0 :: st := by simpa using hsw2.1
    have h2 : List.dropWhile isScopeChar (s0 :: (st ++ ')' :: ':' :: (ws ++ dL))) =
        ')' :: ':' :: (ws ++ dL) := by simpa using hsw2.2
    simp [matchScope, h1, h2, hdescm]

theorem uploadAssets_ok_forall (upload : BuildResult → Except String Unit)
    (l : List BuildResult) (h : uploadAssets upload l = .ok ()) :
    ∀ b ∈ l, upload b = .ok () := by
  induction l with
  | nil => simp
  | cons b rest ih =>
    unfold uploadAssets at h
    cases hu : upload b with
    | error e => rw [hu] at h; exact absurd h (by simp)
    | ok u =>
      rw [hu] at h
      intro x hx
      rcases List.mem_cons.mp hx with hxb | hxr
      · subst hxb; rw [hu]
      · exact ih h x hxr

theorem insertByDate_perm (e : Entry) (l : List Entry) :
    List.Perm (insertByDate e l) (e :: l) := by
  induction l with
  | nil => exact List.Perm.refl _
  | cons x xs ih =>
    unfold insertByDate
    by_cases h : x.date < e.date
    · simp [h]
    · simp only [h, if_false]
      exact ((ih.cons x).trans (List.Perm.swap e x xs))

theorem sortByDate_perm (l : List Entry) : List.Perm (sortByDate l) l := by
  induction l with
  | nil => exact List.Perm.refl _
  | cons e rest ih =>
    have : sortByDate (e :: rest) = insertByDate e (sortByDate rest) := rfl
    rw [this]
    exact (insertByDate_perm e (sortByDate rest)).trans (ih.cons e)

theorem sectionOpt_eq_none (entries : List Entry) (t : String)
    (hfil : entries.filter (fun e => e.type == t) = []) :
    sectionOpt entries t = none := by
  unfold sectionOpt
  rw [hfil]
  rfl

theorem sectionOpt_eq_some (entries : List Entry) (t : String) (x : Entry) (xs : List Entry)
    (hfil : entries.filter (fun e => e.type == t) = x :: xs) :
    sectionOpt entries t = some (t, x :: xs) := by
  unfold sectionOpt
  rw [hfil]
  rfl

theorem filterMap_sectionOpt_map_fst (entries : List Entry) (l : List String) :
    (l.filterMap (sectionOpt entries)).map Prod.fst =
      l.filter (fun t => !(entries.filter (fun e => e.type == t)).isEmpty) := by
  induction l with
  | nil => rfl
  | cons t ts ih =>
    rw [List.filterMap_cons, List.filter_cons]
    cases hfil : entries.filter (fun e => e.type == t) with
    | nil =>
      rw [sectionOpt_eq_none entries t hfil]
      simpa using ih
    | cons x xs =>
      rw [sectionOpt_eq_some entries t x xs hfil]
      simpa using ih

theorem changelogSections_map_fst (entries : List Entry) :
    (changelogSections entries).map Prod.fst =
      kindOrder.filter (fun t => !(entries.filter (fun e => e.type == t)).isEmpty) :=
  filterMap_sectionOpt_map_fst entries kindOrder

theorem changelogSections_mem (entries : List Entry) (s : String × List Entry)
    (hs : s ∈ changelogSections entries) :
    s.1 ∈ kindOrder ∧ s.2 = entries.filter (fun e => e.type == s.1) ∧ s.2 ≠ [] := by
  unfold changelogSections at hs
  rw [List.mem_filterMap] at hs
  obtain ⟨t, ht, hft⟩ := hs
  cases hfil : entries.filter (fun e => e.type == t) with
  | nil =>
    rw [sectionOpt_eq_none entries t hfil] at hft
    exact absurd hft (by simp)
  | cons x xs =>
    rw [sectionOpt_eq_some entries t x xs hfil] at hft
    injection hft with h
    subst h
    exact ⟨ht, hfil.symm, by simp⟩

theorem perm_filter_isEmpty (p : Entry → Bool) (l1 l2 : List Entry) (h : List.Perm l1 l2) :
    (l1.filter p).isEmpty = (l2.filter p).isEmpty := by
  have hp := h.filter p
  by_cases h1 : l1.filter p = []
  · rw [h1] at hp
    rw [h1, hp.symm.eq_nil]
  · have h2 : l2.filter p ≠ [] := by
      intro h2
      rw [h2] at hp
      exact h1 hp.eq_nil
    cases hh1 : (l1.filter p).isEmpty
    · cases hh2 : (l2.filter p).isEmpty
      · rfl
      · exact absurd ((isEmptyIffNil _).mp hh2) h2
    · exact absurd ((isEmptyIffNil _).mp hh1) h1

theorem buildForPlatform_err (pn od : String) (run : String → String → Bool)
    (goos arch : String) (h : run goos arch = false) :
    buildForPlatform pn od run goos arch = .error "build command failed" := by
  simp [buildForPlatform, h]

theorem buildForPlatform_ok (pn od : String) (run : String → String → Bool)
    (goos arch : String) (h : run goos arch = true) :
    ∃ r, buildForPlatform pn od run goos arch = .ok r := by
  unfold buildForPlatform
  rw [h]
  exact ⟨_, rfl⟩

theorem buildCollect_counts (pn od : String) (run : String → String → Bool)
    (matrix : List Platform) :
    (buildCollect pn od run matrix).1.length =
        (matrix.filter (fun p => run p.OS p.Arch)).length ∧
    (buildCollect pn od run matrix).2.length =
        (matrix.filter (fun p => !(run p.OS p.Arch))).length ∧
    (buildCollect pn od run matrix).1.length + (buildCollect pn od run matrix).2.length =
        matrix.length := by
  induction matrix with
  | nil => exact ⟨rfl, rfl, rfl⟩
  | cons p rest ih =>
    obtain ⟨ih1, ih2, ih3⟩ := ih
    cases hr : run p.OS p.Arch
    · have he := buildForPlatform_err pn od run p.OS p.Arch hr
      refine ⟨?_, ?_, ?_⟩ <;>
        · simp [buildCollect, he, List.filter_cons, hr, ih1, ih2]
          try omega
    · obtain ⟨r, hre⟩ := buildForPlatform_ok pn od run p.OS p.Arch hr
      refine ⟨?_, ?_, ?_⟩ <;>
        · simp [buildCollect, hre, List.filter_cons, hr, ih1, ih2]
          try omega

/-- C1 (amended): BuildBinaries waits for every platform build to finish —
each of the N platforms contributes exactly one outcome to the fan-in
collection, N−K artifacts and K failures — but its return value exposes the
full artifact list only when K = 0; when K ≥ 1 it returns a single failure
(the first collected one) and no artifacts, so the caller does not see the
complete failure set. -/
theorem buildAll_waits_but_returns_first_failure (pn od : String)
    (run : String → String → Bool) (matrix : List Platform) :
    (buildCollect pn od run matrix).1.length + (buildCollect pn od run matrix).2.length =
        matrix.length ∧
    (buildCollect pn od run matrix).1.length =
        matrix.length - (buildCollect pn od run matrix).2.length ∧
    (buildCollect pn od run matrix).2.length =
        (matrix.filter (fun p => !(run p.OS p.Arch))).length ∧
    ((buildCollect pn od run matrix).2 = [] →
      BuildBinaries pn od run matrix = .ok (buildCollect pn od run matrix).1) ∧
    (∀ e es, (buildCollect pn od run matrix).2 = e :: es →
      BuildBinaries pn od run matrix = .error e ∧
      returnedArtifacts (BuildBinaries pn od run matrix) = [] ∧
      returnedFailures (BuildBinaries pn od run matrix) = [e]) := by
  obtain ⟨h1, h2, h3⟩ := buildCollect_counts pn od run matrix
  refine ⟨h3, by omega, h2, ?_, ?_⟩
  · intro hnil
    unfold BuildBinaries
    cases hbc : buildCollect pn od run matrix with
    | mk rs es =>
      rw [hbc] at hnil
      simp only at hnil
      subst hnil
      rfl
  · intro e es hcons
    cases hbc : buildCollect pn od run matrix with
    | mk rs es2 =>
      rw [hbc] at hcons
      simp only at hcons
      subst hcons
      have hbb : BuildBinaries pn od run matrix = .error e := by
        unfold BuildBinaries
        rw [hbc]
      exact ⟨hbb, by rw [hbb]; rfl, by rw [hbb]; rfl⟩

/-- Demonstration build oracle: only linux targets compile. -/
def demoRunC1 : String → String → Bool := fun os _ => os = "linux"

/-- Demonstration platform matrix with N = 3 platforms of which K = 2 fail. -/
def demoMatrixC1 : List Platform :=
  [⟨"linux", "amd64"⟩, ⟨"windows", "amd64"⟩, ⟨"windows", "arm64"⟩]

/-- C1 counterexample: on a matrix of N = 3 platforms with K = 2 failing
builds, BuildBinaries does not return N−K = 1 artifacts together with K = 2
failures; the caller receives no artifacts and only the first failure. -/
theorem buildAll_counterexample :
    ¬((returnedArtifacts (BuildBinaries "proj" "dist" demoRunC1 demoMatrixC1)).length = 3 - 2 ∧
      (returnedFailures (BuildBinaries "proj" "dist" demoRunC1 demoMatrixC1)).length = 2) ∧
    (returnedArtifacts (BuildBinaries "proj" "dist" demoRunC1 demoMatrixC1)).length = 0 ∧
    (returnedFailures (BuildBinaries "proj" "dist" demoRunC1 demoMatrixC1)).length = 1 := by
  decide

/-- Witness for the amended C1 theorem at a concrete failing matrix. -/
theorem buildAll_first_failure_witness :
    BuildBinaries "proj" "dist" demoRunC1 demoMatrixC1 =
        .error "failed to build for windows/amd64: build command failed" ∧
    returnedArtifacts (BuildBinaries "proj" "dist" demoRunC1 demoMatrixC1) = [] :=
  have h := (buildAll_waits_but_returns_first_failure "proj" "dist" demoRunC1
      demoMatrixC1).2.2.2.2
      "failed to build for windows/amd64: build command failed"
      ["failed to build for windows/arm64: build command failed"] (by decide)
  ⟨h.1, h.2.1⟩

/-- C2 (amended): uploadAssets attempts the uploads one at a time in artifact
order and stops at the first failure — the uploads after the failing asset
are skipped — returning that single first error rather than M per-asset
outcomes; it reports success exactly when every upload succeeded. -/
theorem uploadAssets_stops_at_first_failure (upload : BuildResult → Except String Unit) :
    (∀ l, (∀ b ∈ l, upload b = .ok ()) →
      uploadAssets upload l = .ok () ∧ uploadAttempts upload l = l) ∧
    (∀ (pre : List BuildResult) (b : BuildResult) (post : List BuildResult) (msg : String),
      (∀ x ∈ pre, upload x = .ok ()) → upload b = .error msg →
        uploadAssets upload (pre ++ b :: post) = .error msg ∧
        uploadAttempts upload (pre ++ b :: post) = pre ++ [b]) := by
  constructor
  · intro l hl
    induction l with
    | nil => exact ⟨rfl, rfl⟩
    | cons b rest ih =>
      have hb := hl b (by simp)
      have ih2 := ih (fun x hx => hl x (by simp [hx]))
      unfold uploadAssets uploadAttempts
      rw [hb]
      exact ⟨ih2.1, by rw [ih2.2]⟩
  · intro pre b post msg hpre hb
    induction pre with
    | nil =>
      simp [uploadAssets, uploadAttempts, hb]
    | cons a as ih =>
      have ha := hpre a (by simp)
      have ih2 := ih (fun x hx => hpre x (by simp [hx]))
      simp [uploadAssets, uploadAttempts, ha, ih2.1, ih2.2]

/-- Demonstration artifacts for the upload stage. -/
def demoB1 : BuildResult :=
  { Path := "dist/proj_linux_amd64", Platform := "linux", Arch := "amd64" }

/-- Second demonstration artifact. -/
def demoB2 : BuildResult :=
  { Path := "dist/proj_linux_arm64", Platform := "linux", Arch := "arm64" }

/-- Demonstration upload oracle: exactly the amd64 artifact fails with a
simulated network error. -/
def demoUploadC2 : BuildResult → Except String Unit :=
  fun b => if b.Arch = "amd64" then .error "simulated network error" else .ok ()

/-- C2 counterexample: over M = 2 artifacts of which exactly one upload
fails, uploadAssets attempts only 1 upload — the sibling after the failure
is skipped — and returns a single error, not M outcomes. -/
theorem uploadAssets_counterexample :
    (uploadAttempts demoUploadC2 [demoB1, demoB2]).length = 1 ∧
    ¬((uploadAttempts demoUploadC2 [demoB1, demoB2]).length = 2) ∧
    uploadAssets demoUploadC2 [demoB1, demoB2] = .error "simulated network error" := by
  refine ⟨rfl, by decide, rfl⟩

/-- Witness for the amended C2 theorem at a concrete failing sequence. -/
theorem uploadAssets_first_failure_witness :
    (uploadAssets demoUploadC2 ([] ++ demoB1 :: [demoB2]) = .error "simulated network error" ∧
      uploadAttempts demoUploadC2 ([] ++ demoB1 :: [demoB2]) = [] ++ [demoB1]) ∧
    (uploadAssets demoUploadC2 [demoB2] = .ok () ∧
      uploadAttempts demoUploadC2 [demoB2] = [demoB2]) :=
  ⟨(uploadAssets_stops_at_first_failure demoUploadC2).2 [] demoB1 [demoB2]
      "simulated network error" (by simp) rfl,
    (uploadAssets_stops_at_first_failure demoUploadC2).1 [demoB2]
      (by intro b hb; simp at hb; subst hb; rfl)⟩

theorem head_take_one (p : Char → Bool) (d : List Char)
    (h : ∀ c ∈ d.take 1, p c = false) : ∀ c, d.head? = some c → p c = false := by
  intro c hc
  cases d with
  | nil => simp at hc
  | cons dh dt =>
    simp only [List.head?_cons, Option.some.injEq] at hc
    subst hc
    exact h dh (by simp)

/-- C3 (amended): for every well-formed conventional commit message, the
classifier returns the type token verbatim as the kind — including when the
token is outside the known kind set — together with the parsed scope and
description; unknown type tokens are not mapped to other. -/
theorem classify_wellformed (tyL : List Char) (sc : Option (List Char)) (ws dL : List Char)
    (hty : tyL ≠ []) (htyw : ∀ c ∈ tyL, isWordChar c = true)
    (hsc : ∀ s, sc = some s → s ≠ [] ∧ ∀ c ∈ s, isScopeChar c = true)
    (hws : ∀ c ∈ ws, isSpaceChar c = true)
    (hd : dL ≠ []) (hdh : ∀ c, dL.head? = some c → isSpaceChar c = false)
    (hn : containsChar '\n' dL = false) :
    parseCommitMessage (String.mk (tyL ++ (scopeChunk sc ++ ':' :: (ws ++ dL)))) =
      { type := String.mk tyL, scope := (sc.map String.mk).getD ""
        description := String.mk dL, hash := "", author := "", date := 0 } := by
  have h := matchConventional_wellformed tyL sc ws dL hty htyw hsc hws hd hdh hn
  unfold parseCommitMessage
  rw [show (String.mk (tyL ++ (scopeChunk sc ++ ':' :: (ws ++ dL)))).toList =
      tyL ++ (scopeChunk sc ++ ':' :: (ws ++ dL)) from rfl, h]

/-- C3 counterexample: the grammar-matching message with the unknown type
token wip keeps wip as the kind; it is not mapped to other even though wip is
outside the known kind set. -/
theorem classify_unknown_kind_counterexample :
    (parseCommitMessage "wip: hello").type = "wip" ∧
    "wip" ∉ kindOrder ∧
    (parseCommitMessage "wip: hello").type ≠ "other" := by
  decide

/-- Witness for the amended C3 theorem at a concrete well-formed message. -/
theorem classify_wellformed_witness :
    parseCommitMessage (String.mk (['w', 'i', 'p'] ++
        (scopeChunk none ++ ':' :: ([' '] ++ ['h', 'i'])))) =
      { type := String.mk ['w', 'i', 'p']
        scope := ((none : Option (List Char)).map String.mk).getD ""
        description := String.mk ['h', 'i'], hash := "", author := "", date := 0 } :=
  classify_wellformed ['w', 'i', 'p'] none [' '] ['h', 'i'] (by decide) (by decide)
    (fun s hh => Option.noConfusion hh) (by decide) (by decide)
    (head_take_one isSpaceChar ['h', 'i'] (by decide)) (by decide)

/-- C9: a grammar-matching message whose type token lies outside the known
kind set yields an entry carrying that token verbatim as its kind, and any
entry with such a kind is omitted from every kind section of the rendered
changelog — the Other Changes section included — because rendering iterates
only the eleven known kinds. -/
theorem unknown_kind_entry_omitted (tyL ws dL : List Char)
    (hty : tyL ≠ []) (htyw : ∀ c ∈ tyL, isWordChar c = true)
    (hws : ∀ c ∈ ws, isSpaceChar c = true)
    (hd : dL ≠ []) (hdh : ∀ c, dL.head? = some c → isSpaceChar c = false)
    (hn : containsChar '\n' dL = false)
    (hunknown : String.mk tyL ∉ kindOrder) :
    (parseCommitMessage (String.mk (tyL ++ ':' :: (ws ++ dL)))).type = String.mk tyL ∧
    ∀ (e : Entry), e.type = String.mk tyL →
      ∀ (entries : List Entry) (s : String × List Entry),
        s ∈ changelogSections entries → e ∉ s.2 := by
  constructor
  · have h := matchConventional_wellformed tyL none ws dL hty htyw
      (fun s hh => Option.noConfusion hh) hws hd hdh hn
    simp only [scopeChunk, List.nil_append] at h
    unfold parseCommitMessage
    rw [show (String.mk (tyL ++ ':' :: (ws ++ dL))).toList =
        tyL ++ ':' :: (ws ++ dL) from rfl, h]
  · intro e he entries s hs hmem
    obtain ⟨hk, hfil, _⟩ := changelogSections_mem entries s hs
    rw [hfil] at hmem
    have h2 : e.type = s.1 := by simpa using (List.mem_filter.mp hmem).2
    apply hunknown
    rw [← he, h2]
    exact hk

/-- Witness for the C9 theorem at a concrete unknown-kind message. -/
theorem unknown_kind_entry_omitted_witness :
    (parseCommitMessage (String.mk (['w', 'i', 'p'] ++ ':' :: ([' '] ++ ['h', 'i'])))).type =
        String.mk ['w', 'i', 'p'] ∧
    ∀ (e : Entry), e.type = String.mk ['w', 'i', 'p'] →
      ∀ (entries : List Entry) (s : String × List Entry),
        s ∈ changelogSections entries → e ∉ s.2 :=
  unknown_kind_entry_omitted ['w', 'i', 'p'] [' '] ['h', 'i'] (by decide) (by decide)
    (by decide) (by decide) (head_take_one isSpaceChar ['h', 'i'] (by decide)) (by decide)
    (by decide)

/-- C10: a message of the shape type-colon or type-parenthesized-scope-colon
with nothing after the colon does not match the grammar, which requires at
least one description character, so the classifier falls back to kind other
with the entire original message as the description. -/
theorem empty_description_falls_back (tyL scL : List Char)
    (hty : tyL ≠ []) (htyw : ∀ c ∈ tyL, isWordChar c = true)
    (hscnil : scL ≠ []) (hscw : ∀ c ∈ scL, isScopeChar c = true) :
    parseCommitMessage (String.mk (tyL ++ [':'])) =
      { type := "other", scope := "", description := String.mk (tyL ++ [':'])
        hash := "", author := "", date := 0 } ∧
    parseCommitMessage (String.mk (tyL ++ '(' :: (scL ++ [')', ':']))) =
      { type := "other", scope := ""
        description := String.mk (tyL ++ '(' :: (scL ++ [')', ':']))
        hash := "", author := "", date := 0 } := by
  constructor
  · have htw := takeWhile_append_stop isWordChar tyL ':' [] htyw (by decide)
    have hm : matchConventional (tyL ++ [':']) = none := by
      unfold matchConventional
      rw [htw.1, htw.2]
      obtain ⟨t0, tt, rfl⟩ := List.exists_cons_of_ne_nil hty
      simp [matchScope, matchDesc]
    unfold parseCommitMessage
    rw [show (String.mk (tyL ++ [':'])).toList = tyL ++ [':'] from rfl, hm]
  · have htw2 := takeWhile_append_stop isWordChar tyL '(' (scL ++ [')', ':']) htyw (by decide)
    have hsw := takeWhile_append_stop isScopeChar scL ')' [':'] hscw (by decide)
    have hm2 : matchConventional (tyL ++ '(' :: (scL ++ [')', ':'])) = none := by
      unfold matchConventional
      rw [htw2.1, htw2.2]
      obtain ⟨t0, tt, rfl⟩ := List.exists_cons_of_ne_nil hty
      obtain ⟨s0, st, rfl⟩ := List.exists_cons_of_ne_nil hscnil
      have h1 : List.takeWhile isScopeChar (s0 :: (st ++ [')', ':'])) = s0 :: st := by
        simpa using hsw.1
      have h2 : List.dropWhile isScopeChar (s0 :: (st ++ [')', ':'])) = [')', ':'] := by
        simpa using hsw.2
      simp [matchScope, h1, h2, matchDesc]
    unfold parseCommitMessage
    rw [show (String.mk (tyL ++ '(' :: (scL ++ [')', ':']))).toList =
        tyL ++ '(' :: (scL ++ [')', ':']) from rfl, hm2]

/-- Witness for the C10 theorem at concrete empty-description messages. -/
theorem empty_description_falls_back_witness :
    parseCommitMessage (String.mk (['f', 'i', 'x'] ++ [':'])) =
      { type := "other", scope := "", description := String.mk (['f', 'i', 'x'] ++ [':'])
        hash := "", author := "", date := 0 } ∧
    parseCommitMessage (String.mk (['f', 'i', 'x'] ++ '(' :: (['x'] ++ [')', ':']))) =
      { type := "other", scope := ""
        description := String.mk (['f', 'i', 'x'] ++ '(' :: (['x'] ++ [')', ':']))
        hash := "", author := "", date := 0 } :=
  empty_description_falls_back ['f', 'i', 'x'] ['x'] (by decide) (by decide) (by decide)
    (by decide)

/-- Demonstration entry authored by alice. -/
def demoEntryA : Entry :=
  { type := "feat", scope := "", description := "a", hash := "h1", author := "alice", date := 1 }

/-- Demonstration entry authored by bob. -/
def demoEntryB : Entry :=
  { type := "fix", scope := "", description := "b", hash := "h2", author := "bob", date := 2 }

/-- C4: the contributors block is rendered by iterating a Go map whose
iteration order is randomized per run, so two runs over identical input can
produce different bytes: both orders below are possible iteration orders of
the same author set, yet the rendered contributor sections differ. -/
theorem contributors_not_deterministic :
    validAuthorOrder [demoEntryA, demoEntryB] ["alice", "bob"] ∧
    validAuthorOrder [demoEntryA, demoEntryB] ["bob", "alice"] ∧
    contributorsSection ["alice", "bob"] ≠ contributorsSection ["bob", "alice"] := by
  refine ⟨by decide, by decide, by decide⟩

theorem strAppend_empty (s : String) : s ++ "" = s := by
  cases s with
  | mk d =>
    show String.mk (d ++ []) = String.mk d
    rw [List.append_nil]

/-- C5: the merged changelog written back to disk is the newly rendered text,
the two-newline separator, then the pre-existing content, so the pre-existing
content survives byte for byte as a suffix of the combined text; an absent
pre-existing document is not an error. -/
theorem writeChangelog_prepends (content existing : String) :
    writeChangelog content (some existing) = .ok (content ++ "\n\n" ++ existing) ∧
    (∃ p, content ++ "\n\n" ++ existing = p ++ existing) ∧
    writeChangelog content none = .ok (content ++ "\n\n") := by
  refine ⟨rfl, ⟨content ++ "\n\n", rfl⟩, ?_⟩
  unfold writeChangelog
  rw [show (match (none : Option String) with | some s => s | none => "") = "" from rfl,
    strAppend_empty]

/-- Demonstration upload oracle for the publisher where every upload
succeeds. -/
def demoUploadOk : BuildResult → Except String Unit := fun _ => .ok ()

/-- C6: in every execution of the release publisher, an asset-upload attempt
only ever appears in the trace strictly after the successful create call that
yielded the remote identifier, and the publisher reports overall success only
when the create call succeeded and every asset upload succeeded. -/
theorem create_strictly_precedes_uploads (repo : String) (create : Except String String)
    (upload : BuildResult → Except String Unit) (binaries : List BuildResult) :
    (∀ n p, (CreateRelease repo create upload binaries).2.get? n =
        some (.uploadAttempt p) →
      ∃ m id, m < n ∧
        (CreateRelease repo create upload binaries).2.get? m = some (.createOk id)) ∧
    ((CreateRelease repo create upload binaries).1 = .ok () →
      (∃ id, create = .ok id) ∧ ∀ b ∈ binaries, upload b = .ok ()) := by
  unfold CreateRelease
  cases hp : parseRepoURL repo with
  | error e =>
    constructor
    · intro n p hn
      simp at hn
    · intro hok
      simp at hok
  | ok pr =>
    cases hc : create with
    | error e =>
      constructor
      · intro n p hn
        cases n with
        | zero => simp at hn
        | succ k => simp at hn
      · intro hok
        simp at hok
    | ok id =>
      cases hu : uploadAssets upload binaries with
      | error e =>
        constructor
        · intro n p hn
          match n with
          | 0 => simp at hn
          | 1 => simp at hn
          | Nat.succ (Nat.succ k) =>
            exact ⟨1, id, by omega, by simp⟩
        · intro hok
          simp at hok
      | ok u =>
        constructor
        · intro n p hn
          match n with
          | 0 => simp at hn
          | 1 => simp at hn
          | Nat.succ (Nat.succ k) =>
            exact ⟨1, id, by omega, by simp⟩
        · intro hok
          obtain ⟨⟩ := u
          exact ⟨⟨id, rfl⟩, uploadAssets_ok_forall upload binaries hu⟩

/-- Witness for the C6 theorem at a concrete successful execution. -/
theorem create_strictly_precedes_uploads_witness :
    (∃ m id, m < 2 ∧
      (CreateRelease "o/r" (.ok "1") demoUploadOk [demoB1]).2.get? m =
        some (.createOk id)) ∧
    (∃ id, (.ok "1" : Except String String) = .ok id) ∧
    (∀ b ∈ [demoB1], demoUploadOk b = .ok ()) :=
  ⟨(create_strictly_precedes_uploads "o/r" (.ok "1") demoUploadOk [demoB1]).1 2
      "dist/proj_linux_amd64" (by decide),
    (create_strictly_precedes_uploads "o/r" (.ok "1") demoUploadOk [demoB1]).2 rfl⟩

/-- C7: a raw commit record whose timestamp does not parse is silently
dropped — the remaining records produce exactly the entries they would
produce without it — and every other record is still processed into the
changelog; a single unparsable record never makes commit processing fail. -/
theorem malformed_timestamp_dropped (parseDate : String → Option Nat)
    (pre post : List (List Char)) (badLine hb ab db mb : List Char)
    (hsplit : splitOnChar '|' badLine = [hb, ab, db, mb])
    (hdate : parseDate (String.mk db) = none) :
    List.Perm (getCommitsLines parseDate (pre ++ badLine :: post))
      (getCommitsLines parseDate (pre ++ post)) ∧
    ∀ line e, line ∈ pre ++ post → parseRecordLine parseDate line = some e →
      e ∈ getCommitsLines parseDate (pre ++ badLine :: post) := by
  have hbadnone : parseRecordLine parseDate badLine = none := by
    simp [parseRecordLine, hsplit, hdate]
  have hfm : (pre ++ badLine :: post).filterMap (parseRecordLine parseDate) =
      (pre ++ post).filterMap (parseRecordLine parseDate) := by
    simp [List.filterMap_append, List.filterMap_cons, hbadnone]
  constructor
  · have hL := sortByDate_perm ((pre ++ badLine :: post).filterMap (parseRecordLine parseDate))
    have hR := sortByDate_perm ((pre ++ post).filterMap (parseRecordLine parseDate))
    unfold getCommitsLines
    exact (hL.trans (hfm ▸ List.Perm.refl _)).trans hR.symm
  · intro line e hline hsome
    have hmem : e ∈ (pre ++ badLine :: post).filterMap (parseRecordLine parseDate) := by
      rw [List.mem_filterMap]
      refine ⟨line, ?_, hsome⟩
      rcases List.mem_append.mp hline with h1 | h2
      · exact List.mem_append.mpr (Or.inl h1)
      · exact List.mem_append.mpr (Or.inr (List.mem_cons.mpr (Or.inr h2)))
    unfold getCommitsLines
    exact (sortByDate_perm _).mem_iff.mpr hmem

/-- Demonstration timestamp oracle: T1 and T2 parse, everything else does
not. -/
def demoParseDate : String → Option Nat :=
  fun s => if s = "T1" then some 1 else if s = "T2" then some 2 else none

/-- Witness for the C7 theorem at a concrete log with one malformed
timestamp between two good records. -/
theorem malformed_timestamp_dropped_witness :
    List.Perm
      (getCommitsLines demoParseDate
        (["h1|alice|T1|feat: a".toList] ++ "h3|carol|BAD|docs: c".toList ::
          ["h2|bob|T2|fix: b".toList]))
      (getCommitsLines demoParseDate
        (["h1|alice|T1|feat: a".toList] ++ ["h2|bob|T2|fix: b".toList])) ∧
    ∀ line e,
      line ∈ ["h1|alice|T1|feat: a".toList] ++ ["h2|bob|T2|fix: b".toList] →
      parseRecordLine demoParseDate line = some e →
      e ∈ getCommitsLines demoParseDate
        (["h1|alice|T1|feat: a".toList] ++ "h3|carol|BAD|docs: c".toList ::
          ["h2|bob|T2|fix: b".toList]) :=
  malformed_timestamp_dropped demoParseDate
    ["h1|alice|T1|feat: a".toList] ["h2|bob|T2|fix: b".toList]
    "h3|carol|BAD|docs: c".toList
    "h3".toList "carol".toList "BAD".toList "docs: c".toList
    (by decide) (by decide)

/-- C8: the kind sections of the rendered changelog appear exactly in the
fixed order feat, fix, docs, style, refactor, perf, test, build, ci, chore,
other — the emitted section-title list is the fixed kind order filtered to
the kinds that occur — no empty section is ever emitted, and the section
list is unchanged under any permutation of the input entries. -/
theorem changelog_fixed_order_no_empty (entries entries2 : List Entry)
    (hperm : List.Perm entries entries2) :
    (∀ s ∈ changelogSections entries, s.2 ≠ []) ∧
    (changelogSections entries).map Prod.fst =
      kindOrder.filter (fun t => !(entries.filter (fun e => e.type == t)).isEmpty) ∧
    (changelogSections entries2).map Prod.fst =
      (changelogSections entries).map Prod.fst := by
  refine ⟨fun s hs => (changelogSections_mem entries s hs).2.2,
    changelogSections_map_fst entries, ?_⟩
  rw [changelogSections_map_fst entries, changelogSections_map_fst entries2]
  apply List.filter_congr
  intro t ht
  have h := perm_filter_isEmpty (fun e => e.type == t) entries entries2 hperm
  rw [h]

/-- Witness for the C8 theorem at a concrete entry list and a reordering of
it. -/
theorem changelog_fixed_order_no_empty_witness :
    (∀ s ∈ changelogSections [demoEntryA, demoEntryB], s.2 ≠ []) ∧
    (changelogSections [demoEntryA, demoEntryB]).map Prod.fst =
      kindOrder.filter
        (fun t => !(([demoEntryA, demoEntryB].filter (fun e => e.type == t)).isEmpty)) ∧
    (changelogSections [demoEntryB, demoEntryA]).map Prod.fst =
      (changelogSections [demoEntryA, demoEntryB]).map Prod.fst :=
  changelog_fixed_order_no_empty [demoEntryA, demoEntryB] [demoEntryB, demoEntryA]
    (by decide)
